import Mathlib

/-!
Shallow embedding of the market-data acquisition and search layer of
`src/services/api.ts`: `fetchTopCryptocurrencies`, `searchCryptocurrencies`
and `fetchMissingFavorites`, together with the module-level mutable state
(`lastApiCallTime`, `searchCache`, `mainDataCache`, `loadedCryptos`).

Time is modelled by an explicit clock in the state: `Date.now()` reads the
clock and every `setTimeout`-wait advances it by the wait duration.  Network
calls are modelled by oracles; each issued request is recorded in a trace so
that "no network call" is expressible as an empty trace.
-/

/-- Decidable equality for `Except`, used to evaluate outcomes on concrete
inputs. -/
instance {ε α : Type} [DecidableEq ε] [DecidableEq α] : DecidableEq (Except ε α) := fun a b =>
  match a, b with
  | Except.error e1, Except.error e2 =>
    if h : e1 = e2 then Decidable.isTrue (by rw [h])
    else Decidable.isFalse (by intro hh; cases hh; exact h rfl)
  | Except.error _, Except.ok _ => Decidable.isFalse (by intro hh; cases hh)
  | Except.ok _, Except.error _ => Decidable.isFalse (by intro hh; cases hh)
  | Except.ok a1, Except.ok a2 =>
    if h : a1 = a2 then Decidable.isTrue (by rw [h])
    else Decidable.isFalse (by intro hh; cases hh; exact h rfl)

/-- One market record as stored by the app (`CryptoCurrency` in
`src/types/index.ts`). -/
structure CryptoCurrency where
  id : String
  name : String
  symbol : String
  rank : String
  priceUsd : String
  percentChange24Hr : String
  marketCapUsd : String
  volumeUsd24Hr : String
  supply : String
  maxSupply : Option String
deriving DecidableEq

/-- One raw market object from the upstream `/coins/markets` endpoint.
The source converts each numeric field with `x ? String(x) : fallback`
(and `String(coin.market_cap_rank || 999)`), so every numeric field is
modelled post-stringification: `some s` when the upstream value is truthy
and stringifies to `s`, `none` when it is absent, null or `0` (falsy). -/
structure RawCoin where
  id : String
  name : String
  symbol : String
  marketCapRank : Option String
  currentPrice : Option String
  priceChangePercentage24h : Option String
  marketCap : Option String
  totalVolume : Option String
  circulatingSupply : Option String
  maxSupply : Option String
deriving DecidableEq

/-- JS whitespace characters relevant here (space, tab, LF, CR). -/
def jsIsWhitespace (c : Char) : Bool :=
  c == ' ' || c == '\t' || c == '\n' || c == '\r'

/-- `String.prototype.toLowerCase` on the ASCII strings this module handles. -/
def jsToLower (s : String) : String := ⟨s.data.map Char.toLower⟩

/-- `String.prototype.toUpperCase` on the ASCII strings this module handles. -/
def jsToUpper (s : String) : String := ⟨s.data.map Char.toUpper⟩

/-- `String.prototype.trim`. -/
def jsTrim (s : String) : String :=
  ⟨((s.data.dropWhile jsIsWhitespace).reverse.dropWhile jsIsWhitespace).reverse⟩

/-- Does the second list start with the first one? -/
def charsHasPre : List Char → List Char → Bool
  | [], _ => true
  | _ :: _, [] => false
  | a :: as, b :: bs => a == b && charsHasPre as bs

/-- Does the second list contain the first one as a contiguous run? -/
def charsHasSub (sub : List Char) : List Char → Bool
  | [] => charsHasPre sub []
  | b :: bs => charsHasPre sub (b :: bs) || charsHasSub sub bs

/-- `s.startsWith(p)`. -/
def jsStartsWith (s p : String) : Bool := charsHasPre p.data s.data

/-- `s.includes(sub)`. -/
def jsIncludes (s sub : String) : Bool := charsHasSub sub.data s.data

/-- `Array.prototype.join(",")`. -/
def joinComma : List String → String
  | [] => ""
  | [x] => x
  | x :: y :: rest => x ++ "," ++ joinComma (y :: rest)

/-- `arr.slice(0, e)` for a possibly negative JS end index. -/
def jsSlice {α : Type} (xs : List α) (e : Int) : List α :=
  if e < 0 then xs.take ((xs.length : Int) + e).toNat else xs.take e.toNat

/-- `Math.ceil(limit / 100)` for an integer `limit`
(`pagesNeeded` in the source; `maxPerPage` is 100). -/
def jsCeilDiv100 (limit : Int) : Int :=
  if 0 ≤ limit then (limit + 99) / 100 else -((-limit) / 100)

/-- Numeric value of a digit run, most significant first. -/
def natOfDigits (l : List Char) : Nat :=
  l.foldl (fun acc c => 10 * acc + (c.toNat - 48)) 0

/-- Exponent part of `parseFloat`, after the `e`: optional sign then digits;
an empty digit run leaves the exponent at 0 (JS parses the valid prefix). -/
def jsParseExp (r : List Char) : Int :=
  let sign : Int := if r.head? = some '-' then -1 else 1
  let r2 := if r.head? = some '-' || r.head? = some '+' then r.tail else r
  let ds := r2.takeWhile Char.isDigit
  if ds = [] then 0 else sign * (natOfDigits ds : Int)

/-- `parseFloat(s)`: longest valid numeric prefix after leading whitespace;
`none` models `NaN`.  Decimal strings are represented exactly in `Rat`. -/
def jsParseFloat (s : String) : Option Rat :=
  let l := s.data.dropWhile jsIsWhitespace
  let sign : Rat := if l.head? = some '-' then -1 else 1
  let l1 := if l.head? = some '-' || l.head? = some '+' then l.tail else l
  let intPart := l1.takeWhile Char.isDigit
  let l2 := l1.dropWhile Char.isDigit
  let fracPart := if l2.head? = some '.' then l2.tail.takeWhile Char.isDigit else []
  let l3 := if l2.head? = some '.' then l2.tail.dropWhile Char.isDigit else l2
  if intPart = [] && fracPart = [] then none
  else
    let mantissa : Rat :=
      (natOfDigits intPart : Rat) + (natOfDigits fracPart : Rat) / (10 : Rat) ^ fracPart.length
    let expVal : Int :=
      match l3 with
      | 'e' :: r => jsParseExp r
      | 'E' :: r => jsParseExp r
      | _ => 0
    some (sign * mantissa * (10 : Rat) ^ expVal)

/-- `parseFloat(s) || 0` (a `NaN` parse falls back to 0). -/
def jsParseFloatOr0 (s : String) : Rat := (jsParseFloat s).getD 0

/-- Rate-limiting and caching constants from the top of the module. -/
def API_RATE_LIMIT : Int := 6000

/-- 10-minute TTL of the per-query search cache. -/
def CACHE_DURATION : Int := 600000

/-- 2-minute TTL of the main listing cache. -/
def MAIN_CACHE_DURATION : Int := 120000

/-- `API_RATE_LIMIT * 1.5`, the stricter interval used before a remote search. -/
def SEARCH_RATE_LIMIT : Int := 9000

/-- `maxRetries` of the listing fetch. -/
def maxRetries : Nat := 3

/-- One entry of the `searchCache` map. -/
structure SearchEntry where
  data : List CryptoCurrency
  timestamp : Int
deriving DecidableEq

/-- The module-level mutable state, plus the explicit clock. -/
structure ApiState where
  lastApiCallTime : Int
  searchCache : List (String × SearchEntry)
  mainCacheData : Option (List CryptoCurrency)
  mainCacheTimestamp : Int
  loadedCryptos : List CryptoCurrency
  clock : Int
deriving DecidableEq

/-- `searchCache.get(key)`. -/
def cacheGet : List (String × SearchEntry) → String → Option SearchEntry
  | [], _ => none
  | (k, e) :: rest, key => if k = key then some e else cacheGet rest key

/-- `searchCache.set(key, e)`. -/
def cacheSet : List (String × SearchEntry) → String → SearchEntry → List (String × SearchEntry)
  | [], key, e => [(key, e)]
  | (k, e0) :: rest, key, e =>
    if k = key then (k, e) :: rest else (k, e0) :: cacheSet rest key e

/-- An axios failure: `status` models `error.response?.status`. -/
structure HttpError where
  status : Option Nat
deriving DecidableEq

/-- One request to the listing endpoint `/coins/markets`
(the `per_page` and `page` parameters). -/
structure MarketsReq where
  perPage : Int
  page : Int
deriving DecidableEq

/-- Upstream behaviour for the listing fetch: response to the n-th
request issued during one call, given the request parameters. -/
def PageOracle : Type := Nat → MarketsReq → Except HttpError (List RawCoin)

/-- The per-coin mapping of the listing fetch: `rank` is `String(index + 1)`,
the 1-based position across all fetched pages. -/
def coinToCrypto (index : Nat) (coin : RawCoin) : CryptoCurrency :=
  { id := coin.id
    name := coin.name
    symbol := jsToUpper coin.symbol
    rank := toString (index + 1)
    priceUsd := coin.currentPrice.getD "0"
    percentChange24Hr := coin.priceChangePercentage24h.getD "0"
    marketCapUsd := coin.marketCap.getD "0"
    volumeUsd24Hr := coin.totalVolume.getD "0"
    supply := coin.circulatingSupply.getD "0"
    maxSupply := coin.maxSupply }

/-- The per-coin mapping used by `fetchMissingFavorites` and the remote
search phase: `rank` is `String(coin.market_cap_rank || 999)`. -/
def rawToCryptoByRank (coin : RawCoin) : CryptoCurrency :=
  { id := coin.id
    name := coin.name
    symbol := jsToUpper coin.symbol
    rank := coin.marketCapRank.getD "999"
    priceUsd := coin.currentPrice.getD "0"
    percentChange24Hr := coin.priceChangePercentage24h.getD "0"
    marketCapUsd := coin.marketCap.getD "0"
    volumeUsd24Hr := coin.totalVolume.getD "0"
    supply := coin.circulatingSupply.getD "0"
    maxSupply := coin.maxSupply }

/-- `allCryptos.map((coin, index) => ...)` starting at a given index. -/
def mapWithIndexFrom (f : Nat → RawCoin → CryptoCurrency) : Nat → List RawCoin → List CryptoCurrency
  | _, [] => []
  | i, c :: cs => f i c :: mapWithIndexFrom f (i + 1) cs

/-- Result of the inner page loop of one attempt. -/
structure PagesResult where
  outcome : Except HttpError (List RawCoin)
  callIdx : Nat
  clock : Int
  trace : List MarketsReq
deriving DecidableEq

/-- The page loop of one attempt (lines 56-85 of the source): fetch pages
`page .. pagesNeeded` (`fuel` iterations remain), accumulating into `acc`;
`per_page` is `Math.min(100, limit - allCryptos.length)`; a short page
breaks the loop; a 1-second wait separates consecutive pages. -/
def fetchPagesLoop (oracle : PageOracle) (limit pagesNeeded : Int) :
    Nat → Int → List RawCoin → Nat → Int → List MarketsReq → PagesResult
  | 0, _page, acc, callIdx, clock, trace =>
    { outcome := Except.ok acc, callIdx := callIdx, clock := clock, trace := trace }
  | fuel + 1, page, acc, callIdx, clock, trace =>
    let itemsThisPage : Int := min 100 (limit - (acc.length : Int))
    let req : MarketsReq := { perPage := itemsThisPage, page := page }
    match oracle callIdx req with
    | Except.error e =>
      { outcome := Except.error e, callIdx := callIdx + 1, clock := clock,
        trace := trace ++ [req] }
    | Except.ok pageData =>
      let acc2 := acc ++ pageData
      if (pageData.length : Int) < itemsThisPage then
        { outcome := Except.ok acc2, callIdx := callIdx + 1, clock := clock,
          trace := trace ++ [req] }
      else
        let clock2 := if page < pagesNeeded then clock + 1000 else clock
        fetchPagesLoop oracle limit pagesNeeded fuel (page + 1) acc2 (callIdx + 1) clock2
          (trace ++ [req])

/-- Result of the retry loop. -/
structure AttemptsResult where
  outcome : Option (List CryptoCurrency)
  callIdx : Nat
  clock : Int
  trace : List MarketsReq
deriving DecidableEq

/-- The retry loop (lines 52-123): each attempt reruns the whole page loop
from page 1 with an empty accumulator; on failure a 429 waits
`attempt * 10000` ms (even after the last attempt), any other error waits
`attempt * 3000` ms only when attempts remain. -/
def fetchAttempts (oracle : PageOracle) (limit pagesNeeded : Int) :
    Nat → Nat → Nat → Int → List MarketsReq → AttemptsResult
  | 0, _attempt, callIdx, clock, trace =>
    { outcome := none, callIdx := callIdx, clock := clock, trace := trace }
  | fuel + 1, attempt, callIdx, clock, trace =>
    let pr := fetchPagesLoop oracle limit pagesNeeded pagesNeeded.toNat 1 [] callIdx clock trace
    match pr.outcome with
    | Except.ok allCryptos =>
      { outcome := some (mapWithIndexFrom coinToCrypto 0 allCryptos),
        callIdx := pr.callIdx, clock := pr.clock, trace := pr.trace }
    | Except.error e =>
      let clock2 :=
        if e.status = some 429 then pr.clock + (attempt : Int) * 10000
        else if attempt < maxRetries then pr.clock + (attempt : Int) * 3000
        else pr.clock
      fetchAttempts oracle limit pagesNeeded fuel (attempt + 1) pr.callIdx clock2 pr.trace

/-- Outcome of one `fetchTopCryptocurrencies` call: the returned value or the
thrown error, the state after the call, and the listing requests issued. -/
structure FetchOutcome where
  result : Except String (List CryptoCurrency)
  state : ApiState
  trace : List MarketsReq
deriving DecidableEq

/-- The message of the error thrown when retries are exhausted with no cache. -/
def fetchErrorMessage : String :=
  "Failed to fetch cryptocurrency data after multiple attempts. Please check your internet connection or try again later."

/-- Lines 44-133: stamp `lastApiCallTime`, run the retry loop; on success
replace the snapshot cache wholesale; on exhaustion fall back to the cached
snapshot if any, else throw. -/
def fetchCore (oracle : PageOracle) (limit : Int) (st : ApiState) : FetchOutcome :=
  let st1 := { st with lastApiCallTime := st.clock }
  let pagesNeeded := jsCeilDiv100 limit
  let ar := fetchAttempts oracle limit pagesNeeded maxRetries 1 0 st1.clock []
  match ar.outcome with
  | some cryptos =>
    let st2 := { st1 with clock := ar.clock, mainCacheData := some cryptos, mainCacheTimestamp := ar.clock, loadedCryptos := cryptos }
    { result := Except.ok cryptos, state := st2, trace := ar.trace }
  | none =>
    match st1.mainCacheData with
    | some data =>
      let st2 := { st1 with clock := ar.clock, loadedCryptos := data }
      { result := Except.ok (jsSlice data limit), state := st2, trace := ar.trace }
    | none =>
      let st2 := { st1 with clock := ar.clock }
      { result := Except.error fetchErrorMessage, state := st2, trace := ar.trace }

/-- Lines 32-42: the rate-limit gate.  Within the minimum interval, a cached
snapshot (even stale, even the empty array, which is truthy) is returned
sliced to `limit`; with no snapshot at all the call waits out the remainder
of the interval and proceeds. -/
def fetchRateGate (oracle : PageOracle) (limit : Int) (st : ApiState) : FetchOutcome :=
  let currentTime := st.clock
  if currentTime - st.lastApiCallTime < API_RATE_LIMIT then
    match st.mainCacheData with
    | some data =>
      { result := Except.ok (jsSlice data limit), state := { st with loadedCryptos := data }, trace := [] }
    | none =>
      let waitTime := API_RATE_LIMIT - (currentTime - st.lastApiCallTime)
      fetchCore oracle limit { st with clock := currentTime + waitTime }
  else
    fetchCore oracle limit st

/-- `fetchTopCryptocurrencies(limit)` (lines 23-134).  The fresh-cache check
comes first: a snapshot younger than the listing TTL is returned sliced to
`limit` with no network activity. -/
def fetchTopCryptocurrencies (oracle : PageOracle) (limit : Int) (st : ApiState) : FetchOutcome :=
  match st.mainCacheData with
  | some data =>
    if st.clock - st.mainCacheTimestamp < MAIN_CACHE_DURATION then
      { result := Except.ok (jsSlice data limit), state := { st with loadedCryptos := data }, trace := [] }
    else fetchRateGate oracle limit st
  | none => fetchRateGate oracle limit st

/-- The dedupe step of the combined remote-search results:
`filter((crypto, index, self) => index === self.findIndex(c => c.id === crypto.id))`
keeps each record whose index is the first index carrying its `id`. -/
def dedupeByIdAux : List String → List CryptoCurrency → List CryptoCurrency
  | _, [] => []
  | seen, c :: rest =>
    if seen.contains c.id then dedupeByIdAux seen rest
    else c :: dedupeByIdAux (c.id :: seen) rest

/-- Remove all but the first occurrence of each `id`. -/
def dedupeById (xs : List CryptoCurrency) : List CryptoCurrency := dedupeByIdAux [] xs

/-- Sort key of the combined-results sort: `parseFloat(c.marketCapUsd) || 0`. -/
def mcKey (c : CryptoCurrency) : Rat := jsParseFloatOr0 c.marketCapUsd

/-- Stable descending insertion by market cap. -/
def insertMarketCapDesc (c : CryptoCurrency) : List CryptoCurrency → List CryptoCurrency
  | [] => [c]
  | d :: ds => if mcKey d < mcKey c then c :: d :: ds else d :: insertMarketCapDesc c ds

/-- `sort((a, b) => bMarketCap - aMarketCap)`: JS `Array.prototype.sort` is
stable, so the stable insertion sort realizes the same ordering. -/
def sortByMarketCapDesc : List CryptoCurrency → List CryptoCurrency
  | [] => []
  | c :: cs => insertMarketCapDesc c (sortByMarketCapDesc cs)

/-- Exact tier predicate (line 274): case-insensitive equality of the query
with the symbol or the name. -/
def isExactMatch (lowerQuery : String) (c : CryptoCurrency) : Bool :=
  jsToLower c.symbol == lowerQuery || jsToLower c.name == lowerQuery

/-- Tier 1, `exactMatches`. -/
def exactMatches (cs : List CryptoCurrency) (q : String) : List CryptoCurrency :=
  cs.filter (isExactMatch q)

/-- Tier 2, `symbolStartMatches`: symbol starts with the query and the record
is not already an exact match (checked by `id`). -/
def symbolStartMatches (cs : List CryptoCurrency) (q : String) : List CryptoCurrency :=
  cs.filter fun c =>
    jsStartsWith (jsToLower c.symbol) q && !((exactMatches cs q).any fun e => e.id == c.id)

/-- Tier 3, `nameStartMatches`: name starts with the query, excluding (by
`id`) the two earlier tiers. -/
def nameStartMatches (cs : List CryptoCurrency) (q : String) : List CryptoCurrency :=
  cs.filter fun c =>
    jsStartsWith (jsToLower c.name) q &&
    !((exactMatches cs q).any fun e => e.id == c.id) &&
    !((symbolStartMatches cs q).any fun s => s.id == c.id)

/-- Tier 4 (`partialMatches` in the source): the query occurs in the name or
the symbol, excluding (by `id`) the three earlier tiers. -/
def substringMatches (cs : List CryptoCurrency) (q : String) : List CryptoCurrency :=
  cs.filter fun c =>
    (jsIncludes (jsToLower c.name) q || jsIncludes (jsToLower c.symbol) q) &&
    !((exactMatches cs q).any fun e => e.id == c.id) &&
    !((symbolStartMatches cs q).any fun s => s.id == c.id) &&
    !((nameStartMatches cs q).any fun n => n.id == c.id)

/-- Lines 274-304: the `localResults` of a search — the four tiers
concatenated in relevance order and truncated with `slice(0, 20)`. -/
def localSearch (cs : List CryptoCurrency) (q : String) : List CryptoCurrency :=
  jsSlice (exactMatches cs q ++ symbolStartMatches cs q ++ nameStartMatches cs q ++ substringMatches cs q) 20

/-- One hit of the remote `/search` endpoint; only `id` is consumed. -/
structure SearchHit where
  id : String
deriving DecidableEq

/-- Upstream behaviour for one search call: the `/search` response and the
follow-up `/coins/markets` response. -/
structure SearchOracle where
  searchEndpoint : Except HttpError (List SearchHit)
  marketsEndpoint : Except HttpError (List RawCoin)

/-- A network request issued by `searchCryptocurrencies`. -/
inductive SearchReq where
  | searchCall (query : String)
  | marketsCall (ids : String)
deriving DecidableEq

/-- Outcome of one `searchCryptocurrencies` call.  `result` is `Except`-valued
so that an uncaught throw would be representable; the try/catch structure of
the source makes `Except.error` unreachable (claim C7). -/
structure SearchOutcome where
  result : Except HttpError (List CryptoCurrency)
  state : ApiState
  trace : List SearchReq
  cacheWrites : Nat
deriving DecidableEq

/-- `loadedCryptos.length > 0 ? loadedCryptos : (mainDataCache.data || [])`
(line 270).  A cached empty snapshot is truthy, `null` is not; both yield
`[]` here. -/
def availableCryptosOf (st : ApiState) : List CryptoCurrency :=
  if st.loadedCryptos.length > 0 then st.loadedCryptos else st.mainCacheData.getD []

/-- Lines 338-416, the inner try of the remote-search phase: stamp
`lastApiCallTime`, call `/search`; on failure or zero hits fall back to the
local results; otherwise wait 1 s and resolve market data for the top 10
hits, then merge, dedupe by id, sort by descending market cap and truncate
to 20.  Every path caches what it returns under `cacheKey`. -/
def searchApiPhase (oracle : SearchOracle) (query cacheKey : String)
    (localResults : List CryptoCurrency) (st : ApiState) : SearchOutcome :=
  let st1 := { st with lastApiCallTime := st.clock }
  match oracle.searchEndpoint with
  | Except.error _ =>
    let st2 := { st1 with searchCache := cacheSet st1.searchCache cacheKey { data := localResults, timestamp := st1.clock } }
    { result := Except.ok localResults, state := st2, trace := [SearchReq.searchCall query], cacheWrites := 1 }
  | Except.ok searchHits =>
    if searchHits.length == 0 then
      let st2 := { st1 with searchCache := cacheSet st1.searchCache cacheKey { data := localResults, timestamp := st1.clock } }
      { result := Except.ok localResults, state := st2, trace := [SearchReq.searchCall query], cacheWrites := 1 }
    else
      let coinIds := joinComma ((searchHits.take 10).map SearchHit.id)
      let st2 := { st1 with clock := st1.clock + 1000 }
      match oracle.marketsEndpoint with
      | Except.error _ =>
        let st3 := { st2 with searchCache := cacheSet st2.searchCache cacheKey { data := localResults, timestamp := st2.clock } }
        { result := Except.ok localResults, state := st3,
          trace := [SearchReq.searchCall query, SearchReq.marketsCall coinIds], cacheWrites := 1 }
      | Except.ok marketCoins =>
        let comprehensiveResults := marketCoins.map rawToCryptoByRank
        let combinedResults := jsSlice (sortByMarketCapDesc (dedupeById (localResults ++ comprehensiveResults))) 20
        let st3 := { st2 with searchCache := cacheSet st2.searchCache cacheKey { data := combinedResults, timestamp := st2.clock } }
        { result := Except.ok combinedResults, state := st3,
          trace := [SearchReq.searchCall query, SearchReq.marketsCall coinIds], cacheWrites := 1 }

/-- Lines 259-336: the part of a search after the query cache missed.  Queries
shorter than 2 characters return empty; non-empty local results are cached
and returned; with no local data at all, or a query shorter than 3
characters, empty is returned; within 1.5x the rate-limit interval of the
last network call the (empty) local results are cached and returned; only
then is the remote phase entered. -/
def searchLocalPhase (oracle : SearchOracle) (query cacheKey : String) (st : ApiState) : SearchOutcome :=
  if query.length < 2 then
    { result := Except.ok [], state := st, trace := [], cacheWrites := 0 }
  else
    let lowerQuery := jsToLower query
    let availableCryptos := availableCryptosOf st
    let localResults := localSearch availableCryptos lowerQuery
    if localResults.length ≥ 1 then
      let st2 := { st with searchCache := cacheSet st.searchCache cacheKey { data := localResults, timestamp := st.clock } }
      { result := Except.ok localResults, state := st2, trace := [], cacheWrites := 1 }
    else if availableCryptos.length == 0 then
      { result := Except.ok [], state := st, trace := [], cacheWrites := 0 }
    else if query.length < 3 then
      { result := Except.ok [], state := st, trace := [], cacheWrites := 0 }
    else if st.clock - st.lastApiCallTime < SEARCH_RATE_LIMIT then
      let st2 := { st with searchCache := cacheSet st.searchCache cacheKey { data := localResults, timestamp := st.clock } }
      { result := Except.ok localResults, state := st2, trace := [], cacheWrites := 1 }
    else
      searchApiPhase oracle query cacheKey localResults st

/-- `searchCryptocurrencies(query)` (lines 249-426).  The cache key is the
trimmed lowercased query; a fresh cached entry is returned verbatim.  All
matching below uses the lowercased but un-trimmed query.  The outer catch of
the source is unreachable in this model (no other statement throws), so it
does not appear. -/
def searchCryptocurrencies (oracle : SearchOracle) (query : String) (st : ApiState) : SearchOutcome :=
  let cacheKey := jsTrim (jsToLower query)
  match cacheGet st.searchCache cacheKey with
  | some cached =>
    if st.clock - cached.timestamp < CACHE_DURATION then
      { result := Except.ok cached.data, state := st, trace := [], cacheWrites := 0 }
    else searchLocalPhase oracle query cacheKey st
  | none => searchLocalPhase oracle query cacheKey st

/-- Outcome of one `fetchMissingFavorites` call; the trace holds the
comma-joined id list of each issued batch request. -/
structure FavOutcome where
  result : List CryptoCurrency
  state : ApiState
  trace : List String
deriving DecidableEq

/-- The favorite ids absent from the passed snapshot:
`favoriteIds.filter(id => !loadedIds.has(id))` with
`loadedIds = new Set(loadedCryptos.map(c => c.id))` (lines 180-181). -/
def missingOf (favoriteIds : List String) (loaded : List CryptoCurrency) : List String :=
  favoriteIds.filter fun i => !((loaded.map CryptoCurrency.id).contains i)

/-- `fetchMissingFavorites(favoriteIds, loadedCryptos)` (lines 177-241):
ids already present in the passed list are not fetched; if nothing is
missing, or the rate-limit interval has not elapsed, return empty with no
request; otherwise stamp `lastApiCallTime` and issue one batch request for
the first 50 missing ids, mapping whatever the upstream returns (a failure
is caught and yields empty). -/
def fetchMissingFavorites (oracle : Except HttpError (List RawCoin))
    (favoriteIds : List String) (loaded : List CryptoCurrency) (st : ApiState) : FavOutcome :=
  let missingIds := missingOf favoriteIds loaded
  if missingIds.length == 0 then
    { result := [], state := st, trace := [] }
  else if st.clock - st.lastApiCallTime < API_RATE_LIMIT then
    { result := [], state := st, trace := [] }
  else
    let st1 := { st with lastApiCallTime := st.clock }
    let idsToFetch := joinComma (missingIds.take 50)
    match oracle with
    | Except.error _ => { result := [], state := st1, trace := [idsToFetch] }
    | Except.ok coins => { result := coins.map rawToCryptoByRank, state := st1, trace := [idsToFetch] }

/-- Sequential-rank check from a starting index: entry `j` of the list has
`rank = toString (start + j + 1)`. -/
def ranksSequentialFrom : Nat → List CryptoCurrency → Bool
  | _, [] => true
  | i, c :: cs => (c.rank == toString (i + 1)) && ranksSequentialFrom (i + 1) cs

/-- Every record's `rank` is its 1-based position in the list. -/
def ranksSequential (l : List CryptoCurrency) : Bool := ranksSequentialFrom 0 l

/-- Position of the first occurrence of `x` (length of the list when absent);
used to state "ranked above" for search results. -/
def locOf (x : CryptoCurrency) : List CryptoCurrency → Nat
  | [] => 0
  | y :: ys => if y = x then 0 else locOf x ys + 1

/-! ### Concrete records, oracles and states used to evaluate the model -/

/-- A minimal raw upstream coin. -/
def rawX : RawCoin :=
  { id := "x", name := "X", symbol := "x", marketCapRank := none, currentPrice := none,
    priceChangePercentage24h := none, marketCap := none, totalVolume := none,
    circulatingSupply := none, maxSupply := none }

/-- Raw upstream record for ethereum, as returned by a batch-by-id request. -/
def rawEth : RawCoin :=
  { id := "ethereum", name := "Ethereum", symbol := "eth", marketCapRank := some "2",
    currentPrice := some "2000", priceChangePercentage24h := some "1",
    marketCap := some "200", totalVolume := some "5", circulatingSupply := some "120",
    maxSupply := none }

/-- A listing oracle on which every request fails with a generic error. -/
def errPageOracle : PageOracle := fun _ _ => Except.error { status := none }

/-- A listing oracle for a 2-page scenario: every even-numbered call (the
page-1 requests) succeeds with a full page of 100 records, every
odd-numbered call (the page-2 requests) is rate-limited with HTTP 429. -/
def c4oracle429 : PageOracle := fun n _ =>
  if n % 2 == 0 then Except.ok (List.replicate 100 rawX)
  else Except.error { status := some 429 }

/-- Like `c4oracle429` but the page-2 failures carry no status (generic). -/
def c4oracleGeneric : PageOracle := fun n _ =>
  if n % 2 == 0 then Except.ok (List.replicate 100 rawX)
  else Except.error { status := none }

/-- A search oracle on which both endpoints fail. -/
def errSearchOracle : SearchOracle :=
  { searchEndpoint := Except.error { status := none },
    marketsEndpoint := Except.error { status := none } }

/-- The Bitcoin record of the concrete scenarios. -/
def wBtc : CryptoCurrency :=
  { id := "bitcoin", name := "Bitcoin", symbol := "BTC", rank := "1", priceUsd := "40000",
    percentChange24Hr := "1", marketCapUsd := "800", volumeUsd24Hr := "10",
    supply := "19", maxSupply := some "21" }

/-- The Ethereum record of the concrete scenarios. -/
def wEth : CryptoCurrency :=
  { id := "ethereum", name := "Ethereum", symbol := "ETH", rank := "2", priceUsd := "2000",
    percentChange24Hr := "1", marketCapUsd := "200", volumeUsd24Hr := "5",
    supply := "120", maxSupply := none }

/-- A record whose name merely contains "btc" as a substring. -/
def wSub : CryptoCurrency :=
  { id := "xb", name := "xbtcx", symbol := "ZZZ", rank := "3", priceUsd := "1",
    percentChange24Hr := "0", marketCapUsd := "1", volumeUsd24Hr := "0",
    supply := "0", maxSupply := none }

/-- A record whose name contains two consecutive spaces. -/
def c6coin : CryptoCurrency :=
  { id := "abcd", name := "AB  CD", symbol := "ABCD", rank := "1", priceUsd := "0",
    percentChange24Hr := "0", marketCapUsd := "0", volumeUsd24Hr := "0",
    supply := "0", maxSupply := none }

/-- A state with `c6coin` loaded and an empty search cache. -/
def c6state : ApiState :=
  { lastApiCallTime := 0, searchCache := [], mainCacheData := none,
    mainCacheTimestamp := 0, loadedCryptos := [c6coin], clock := 0 }

/-- State with nothing cached and the rate-limit interval elapsed. -/
def c4state : ApiState :=
  { lastApiCallTime := 0, searchCache := [], mainCacheData := none,
    mainCacheTimestamp := 0, loadedCryptos := [], clock := 100000 }

/-- State with Bitcoin loaded, immediately after a network call (so a remote
search is rate-limited). -/
def c10state : ApiState :=
  { lastApiCallTime := 1000000, searchCache := [], mainCacheData := none,
    mainCacheTimestamp := 0, loadedCryptos := [wBtc], clock := 1000000 }

/-- State with a fresh cached search entry under key "ab". -/
def c10cachedState : ApiState :=
  { lastApiCallTime := 0, searchCache := [("ab", { data := [wBtc], timestamp := 900000 })],
    mainCacheData := none, mainCacheTimestamp := 0, loadedCryptos := [], clock := 1000000 }

/-- The all-empty initial state. -/
def emptyState : ApiState :=
  { lastApiCallTime := 0, searchCache := [], mainCacheData := none,
    mainCacheTimestamp := 0, loadedCryptos := [], clock := 0 }

/-- State with a fresh ranked snapshot in the listing cache. -/
def wFreshState : ApiState :=
  { lastApiCallTime := 0, searchCache := [], mainCacheData := some [wBtc, wEth],
    mainCacheTimestamp := 500, loadedCryptos := [], clock := 1000 }

/-- State with a stale ranked snapshot, within the rate-limit interval of the
previous network call. -/
def wStaleState : ApiState :=
  { lastApiCallTime := 0, searchCache := [], mainCacheData := some [wBtc, wEth],
    mainCacheTimestamp := -200000, loadedCryptos := [], clock := 1000 }

/-- State with nothing cached and the rate-limit interval elapsed. -/
def wElapsedState : ApiState :=
  { lastApiCallTime := 0, searchCache := [], mainCacheData := none,
    mainCacheTimestamp := 0, loadedCryptos := [], clock := 50000 }

/-- The page-1 request of a 2-page, limit-150 fetch. -/
def reqP1 : MarketsReq := { perPage := 100, page := 1 }

/-- The page-2 request of a 2-page, limit-150 fetch. -/
def reqP2 : MarketsReq := { perPage := 50, page := 2 }

/-- State with Bitcoin loaded and the rate-limit interval elapsed. -/
def wSearchState : ApiState :=
  { lastApiCallTime := 0, searchCache := [], mainCacheData := none,
    mainCacheTimestamp := 0, loadedCryptos := [wBtc], clock := 50000 }

/-! ### Helper lemmas -/

theorem jsSlice_of_nonneg {α : Type} (xs : List α) (e : Int) (h : 0 ≤ e) :
    jsSlice xs e = xs.take e.toNat := by
  unfold jsSlice
  rw [if_neg (by omega)]

theorem length_jsSlice_le (xs : List CryptoCurrency) (e : Int) (h : 0 ≤ e) :
    ((jsSlice xs e).length : Int) ≤ e := by
  rw [jsSlice_of_nonneg xs e h]
  have := List.length_take_le e.toNat xs
  omega

theorem ranksSequentialFrom_take :
    ∀ (l : List CryptoCurrency) (i n : Nat), ranksSequentialFrom i l = true →
      ranksSequentialFrom i (l.take n) = true := by
  intro l
  induction l with
  | nil => intro i n _; simp [List.take_nil, ranksSequentialFrom]
  | cons c cs ih =>
    intro i n h
    cases n with
    | zero => simp [ranksSequentialFrom]
    | succ m =>
      simp only [List.take_succ_cons, ranksSequentialFrom, Bool.and_eq_true] at h ⊢
      exact ⟨h.1, ih (i + 1) m h.2⟩

theorem ranksSequential_take (l : List CryptoCurrency) (n : Nat)
    (h : ranksSequential l = true) : ranksSequential (l.take n) = true :=
  ranksSequentialFrom_take l 0 n h

theorem ranksSequentialFrom_mapWithIndexFrom :
    ∀ (l : List RawCoin) (i : Nat),
      ranksSequentialFrom i (mapWithIndexFrom coinToCrypto i l) = true := by
  intro l
  induction l with
  | nil => intro i; rfl
  | cons c cs ih =>
    intro i
    simp only [mapWithIndexFrom, ranksSequentialFrom, Bool.and_eq_true]
    exact ⟨by simp [coinToCrypto], ih (i + 1)⟩

theorem length_mapWithIndexFrom (f : Nat → RawCoin → CryptoCurrency) :
    ∀ (i : Nat) (l : List RawCoin), (mapWithIndexFrom f i l).length = l.length := by
  intro i l
  induction l generalizing i with
  | nil => rfl
  | cons c cs ih => simp [mapWithIndexFrom, ih]

theorem locOf_lt_length (x : CryptoCurrency) :
    ∀ l : List CryptoCurrency, x ∈ l → locOf x l < l.length := by
  intro l hm
  induction l with
  | nil => cases hm
  | cons y ys ih =>
    simp only [locOf, List.length_cons]
    by_cases h : y = x
    · rw [if_pos h]; omega
    · rw [if_neg h]
      have hx : x ∈ ys := by
        cases hm with
        | head => exact absurd rfl h
        | tail _ h2 => exact h2
      have := ih hx
      omega

theorem locOf_append_left (x : CryptoCurrency) :
    ∀ (l1 l2 : List CryptoCurrency), x ∈ l1 → locOf x (l1 ++ l2) = locOf x l1 := by
  intro l1 l2 hm
  induction l1 with
  | nil => cases hm
  | cons y ys ih =>
    simp only [List.cons_append, locOf, List.append_eq]
    by_cases h : y = x
    · rw [if_pos h, if_pos h]
    · rw [if_neg h, if_neg h]
      have hx : x ∈ ys := by
        cases hm with
        | head => exact absurd rfl h
        | tail _ h2 => exact h2
      rw [ih hx]

theorem locOf_append_right (x : CryptoCurrency) :
    ∀ (l1 l2 : List CryptoCurrency), x ∉ l1 →
      locOf x (l1 ++ l2) = l1.length + locOf x l2 := by
  intro l1 l2 hm
  induction l1 with
  | nil => simp [locOf]
  | cons y ys ih =>
    simp only [List.cons_append, locOf, List.length_cons, List.append_eq]
    have h : ¬(y = x) := fun he => hm (he ▸ List.mem_cons_self y ys)
    rw [if_neg h]
    have hx : x ∉ ys := fun hy => hm (List.mem_cons_of_mem y hy)
    rw [ih hx]
    omega

theorem locOf_take (x : CryptoCurrency) :
    ∀ (l : List CryptoCurrency) (n : Nat), x ∈ l.take n →
      locOf x (l.take n) = locOf x l := by
  intro l
  induction l with
  | nil => intro n hm; simp [List.take_nil] at hm
  | cons y ys ih =>
    intro n hm
    cases n with
    | zero => simp [List.take_zero] at hm
    | succ m =>
      simp only [List.take_succ_cons, locOf] at hm ⊢
      by_cases h : y = x
      · rw [if_pos h, if_pos h]
      · rw [if_neg h, if_neg h]
        have hx : x ∈ ys.take m := by
          cases hm with
          | head => exact absurd rfl h
          | tail _ h2 => exact h2
        rw [ih m hx]

theorem mem_take_of_locOf_lt (x : CryptoCurrency) :
    ∀ (l : List CryptoCurrency) (n : Nat), x ∈ l → locOf x l < n → x ∈ l.take n := by
  intro l
  induction l with
  | nil => intro n hm; cases hm
  | cons y ys ih =>
    intro n hm hlt
    simp only [locOf] at hlt
    by_cases h : y = x
    · cases n with
      | zero => rw [if_pos h] at hlt; omega
      | succ m => rw [List.take_succ_cons, h]; exact List.mem_cons_self x _
    · rw [if_neg h] at hlt
      have hx : x ∈ ys := by
        cases hm with
        | head => exact absurd rfl h
        | tail _ h2 => exact h2
      cases n with
      | zero => omega
      | succ m =>
        rw [List.take_succ_cons]
        exact List.mem_cons_of_mem y (ih m hx (by omega))

theorem mem_of_mem_take' {x : CryptoCurrency} {l : List CryptoCurrency} {n : Nat}
    (h : x ∈ l.take n) : x ∈ l :=
  (List.take_subset n l) h

theorem not_id_mem_of_any_false {a : CryptoCurrency} {l : List CryptoCurrency}
    (h : (l.any fun e => e.id == a.id) = false) : ∀ b ∈ l, a.id ≠ b.id := by
  intro b hb heq
  have h2 : (l.any fun e => e.id == a.id) = true :=
    List.any_eq_true.mpr ⟨b, hb, by simp [heq]⟩
  rw [h] at h2
  cases h2

/-- Claim C2: the local search ranks the snapshot into four tiers — exact
case-insensitive match on symbol or name, symbol starts-with, name
starts-with, then substring match — with no record (by `id`) in more than
one tier, concatenates them in that order and truncates to at most 20; in
particular, for a snapshot containing a record with symbol `BTC`, a search
for "btc" places that record above any record whose name merely contains
"btc" as a substring. -/
theorem C2_tiered_local_search (cs : List CryptoCurrency) (q : String) :
    (localSearch cs q).length ≤ 20 ∧
    localSearch cs q =
      (exactMatches cs q ++ symbolStartMatches cs q ++ nameStartMatches cs q ++
        substringMatches cs q).take 20 ∧
    (∀ a ∈ symbolStartMatches cs q, ∀ b ∈ exactMatches cs q, a.id ≠ b.id) ∧
    (∀ a ∈ nameStartMatches cs q,
      ∀ b ∈ exactMatches cs q ++ symbolStartMatches cs q, a.id ≠ b.id) ∧
    (∀ a ∈ substringMatches cs q,
      ∀ b ∈ exactMatches cs q ++ symbolStartMatches cs q ++ nameStartMatches cs q,
        a.id ≠ b.id) ∧
    (∀ b c : CryptoCurrency, b ∈ cs → b.symbol = "BTC" →
      jsIncludes (jsToLower c.name) "btc" = true →
      isExactMatch "btc" c = false →
      jsStartsWith (jsToLower c.symbol) "btc" = false →
      jsStartsWith (jsToLower c.name) "btc" = false →
      c ∈ localSearch cs "btc" →
      b ∈ localSearch cs "btc" ∧
        locOf b (localSearch cs "btc") < locOf c (localSearch cs "btc")) := by
  have hslice : ∀ (cs' : List CryptoCurrency) (q' : String),
      localSearch cs' q' =
        (exactMatches cs' q' ++ symbolStartMatches cs' q' ++ nameStartMatches cs' q' ++
          substringMatches cs' q').take 20 := by
    intro cs' q'
    rw [localSearch, jsSlice_of_nonneg _ _ (by norm_num)]
    rfl
  refine ⟨?_, hslice cs q, ?_, ?_, ?_, ?_⟩
  · rw [hslice]
    exact List.length_take_le 20 _
  · intro a ha b hb
    have h2 := (List.mem_filter.mp ha).2
    simp only [Bool.and_eq_true, Bool.not_eq_true'] at h2
    exact not_id_mem_of_any_false h2.2 b hb
  · intro a ha b hb
    have h2 := (List.mem_filter.mp ha).2
    simp only [Bool.and_eq_true, Bool.not_eq_true'] at h2
    rcases List.mem_append.mp hb with hb1 | hb1
    · exact not_id_mem_of_any_false h2.1.2 b hb1
    · exact not_id_mem_of_any_false h2.2 b hb1
  · intro a ha b hb
    have h2 := (List.mem_filter.mp ha).2
    simp only [Bool.and_eq_true, Bool.not_eq_true'] at h2
    rcases List.mem_append.mp hb with hb1 | hb1
    · rcases List.mem_append.mp hb1 with hb2 | hb2
      · exact not_id_mem_of_any_false h2.1.1.2 b hb2
      · exact not_id_mem_of_any_false h2.1.2 b hb2
    · exact not_id_mem_of_any_false h2.2 b hb1
  · intro b c hbcs hbsym hcinc hcnotex hcnotsym hcnotname hcres
    have hbe : b ∈ exactMatches cs "btc" := by
      refine List.mem_filter.mpr ⟨hbcs, ?_⟩
      unfold isExactMatch
      rw [hbsym]
      have hx : (jsToLower "BTC" == "btc") = true := by decide
      rw [hx, Bool.true_or]
    have hce : c ∉ exactMatches cs "btc" := by
      intro hc
      have := (List.mem_filter.mp hc).2
      rw [hcnotex] at this
      cases this
    have hcs : c ∉ symbolStartMatches cs "btc" := by
      intro hc
      have h2 := (List.mem_filter.mp hc).2
      simp only [Bool.and_eq_true] at h2
      rw [hcnotsym] at h2
      cases h2.1
    have hcn : c ∉ nameStartMatches cs "btc" := by
      intro hc
      have h2 := (List.mem_filter.mp hc).2
      simp only [Bool.and_eq_true] at h2
      rw [hcnotname] at h2
      cases h2.1.1
    set e := exactMatches cs "btc" with he
    set s := symbolStartMatches cs "btc" with hs
    set n := nameStartMatches cs "btc" with hn
    set p := substringMatches cs "btc" with hp
    have hfull : localSearch cs "btc" = (e ++ s ++ n ++ p).take 20 := hslice cs "btc"
    have hbfull : b ∈ e ++ s ++ n ++ p := by
      refine List.mem_append.mpr (Or.inl ?_)
      refine List.mem_append.mpr (Or.inl ?_)
      exact List.mem_append.mpr (Or.inl hbe)
    have hcen : c ∉ e ++ s ++ n := by
      intro hc
      rcases List.mem_append.mp hc with h1 | h1
      · rcases List.mem_append.mp h1 with h2 | h2
        · exact hce h2
        · exact hcs h2
      · exact hcn h1
    have hlb : locOf b (e ++ s ++ n ++ p) = locOf b e := by
      rw [locOf_append_left b (e ++ s ++ n) p (by
        refine List.mem_append.mpr (Or.inl ?_)
        exact List.mem_append.mpr (Or.inl hbe)),
        locOf_append_left b (e ++ s) n (List.mem_append.mpr (Or.inl hbe)),
        locOf_append_left b e s hbe]
    have hlc : locOf c (e ++ s ++ n ++ p) = (e ++ s ++ n).length + locOf c p :=
      locOf_append_right c (e ++ s ++ n) p hcen
    have hbe_len : locOf b e < e.length := locOf_lt_length b e hbe
    have helen : e.length ≤ (e ++ s ++ n).length := by
      simp [List.length_append]
    have hlt : locOf b (e ++ s ++ n ++ p) < locOf c (e ++ s ++ n ++ p) := by
      rw [hlb, hlc]
      omega
    rw [hfull] at hcres
    have hcfull : c ∈ e ++ s ++ n ++ p := mem_of_mem_take' hcres
    have hc20 : locOf c (e ++ s ++ n ++ p) < 20 := by
      have h1 := locOf_lt_length c _ hcres
      have h2 := List.length_take_le 20 (e ++ s ++ n ++ p)
      rw [locOf_take c _ 20 hcres] at h1
      omega
    have hb20 : locOf b (e ++ s ++ n ++ p) < 20 := by omega
    have hbtake : b ∈ (e ++ s ++ n ++ p).take 20 :=
      mem_take_of_locOf_lt b _ 20 hbfull hb20
    rw [hfull]
    refine ⟨hbtake, ?_⟩
    rw [locOf_take b _ 20 hbtake, locOf_take c _ 20 hcres]
    omega

theorem C2_witness :
    wBtc ∈ ([wSub, wBtc] : List CryptoCurrency) ∧
    wBtc.symbol = "BTC" ∧
    jsIncludes (jsToLower wSub.name) "btc" = true ∧
    isExactMatch "btc" wSub = false ∧
    jsStartsWith (jsToLower wSub.symbol) "btc" = false ∧
    jsStartsWith (jsToLower wSub.name) "btc" = false ∧
    wSub ∈ localSearch [wSub, wBtc] "btc" ∧
    wBtc ∈ localSearch [wSub, wBtc] "btc" ∧
    locOf wBtc (localSearch [wSub, wBtc] "btc") < locOf wSub (localSearch [wSub, wBtc] "btc") := by
  have h := (C2_tiered_local_search [wSub, wBtc] "btc").2.2.2.2.2 wBtc wSub
    (by decide) rfl (by decide) (by decide) (by decide) (by decide) (by decide)
  exact ⟨by decide, rfl, by decide, by decide, by decide, by decide, by decide, h.1, h.2⟩

theorem jsSlice_nil {α : Type} (e : Int) : jsSlice ([] : List α) e = [] := by
  unfold jsSlice
  split <;> simp

theorem jsCeilDiv100_toNat_pos (limit : Int) (h : 1 ≤ limit) :
    1 ≤ (jsCeilDiv100 limit).toNat := by
  unfold jsCeilDiv100
  rw [if_pos (by omega)]
  omega

theorem jsCeilDiv100_toNat_zero (limit : Int) (h : limit ≤ 0) :
    (jsCeilDiv100 limit).toNat = 0 := by
  unfold jsCeilDiv100
  by_cases h0 : 0 ≤ limit
  · rw [if_pos h0]; omega
  · rw [if_neg h0]; omega

theorem fetchPagesLoop_ok_length (oracle : PageOracle) (limit pagesNeeded : Int)
    (hbound : ∀ n req l2, oracle n req = Except.ok l2 → (l2.length : Int) ≤ req.perPage) :
    ∀ (fuel : Nat) (page : Int) (acc : List RawCoin) (callIdx : Nat) (clock : Int)
      (trace : List MarketsReq) (l : List RawCoin),
      (acc.length : Int) ≤ limit →
      (fetchPagesLoop oracle limit pagesNeeded fuel page acc callIdx clock trace).outcome =
        Except.ok l →
      (l.length : Int) ≤ limit := by
  intro fuel
  induction fuel with
  | zero =>
    intro page acc callIdx clock trace l hacc hout
    simp only [fetchPagesLoop] at hout
    injection hout with h
    subst h
    exact hacc
  | succ f ih =>
    intro page acc callIdx clock trace l hacc hout
    rw [fetchPagesLoop] at hout
    cases horacle : oracle callIdx { perPage := min 100 (limit - (acc.length : Int)), page := page } with
    | error e =>
      rw [horacle] at hout
      cases hout
    | ok pageData =>
      rw [horacle] at hout
      dsimp only at hout
      have hpd : (pageData.length : Int) ≤ min 100 (limit - (acc.length : Int)) :=
        hbound _ _ _ horacle
      have hmin : min (100 : Int) (limit - (acc.length : Int)) ≤ limit - (acc.length : Int) :=
        min_le_right _ _
      have hacc2 : ((acc ++ pageData).length : Int) ≤ limit := by
        rw [List.length_append]
        push_cast
        omega
      by_cases hbreak : (pageData.length : Int) < min 100 (limit - (acc.length : Int))
      · rw [if_pos hbreak] at hout
        injection hout with h
        subst h
        exact hacc2
      · rw [if_neg hbreak] at hout
        exact ih _ _ _ _ _ _ hacc2 hout

theorem fetchAttempts_ok (oracle : PageOracle) (limit pagesNeeded : Int)
    (hbound : ∀ n req l2, oracle n req = Except.ok l2 → (l2.length : Int) ≤ req.perPage)
    (hlim : 0 ≤ limit) :
    ∀ (fuel attempt callIdx : Nat) (clock : Int) (trace : List MarketsReq)
      (cr : List CryptoCurrency),
      (fetchAttempts oracle limit pagesNeeded fuel attempt callIdx clock trace).outcome =
        some cr →
      (cr.length : Int) ≤ limit ∧ ranksSequential cr = true := by
  intro fuel
  induction fuel with
  | zero =>
    intro attempt callIdx clock trace cr hout
    simp only [fetchAttempts] at hout
    cases hout
  | succ f ih =>
    intro attempt callIdx clock trace cr hout
    rw [fetchAttempts] at hout
    dsimp only at hout
    cases hpr : (fetchPagesLoop oracle limit pagesNeeded pagesNeeded.toNat 1 [] callIdx clock trace).outcome with
    | ok allCryptos =>
      rw [hpr] at hout
      dsimp only at hout
      injection hout with h
      subst h
      constructor
      · rw [length_mapWithIndexFrom]
        exact fetchPagesLoop_ok_length oracle limit pagesNeeded hbound _ _ _ _ _ _ _
          (by simp; omega) hpr
      · exact ranksSequentialFrom_mapWithIndexFrom allCryptos 0
    | error e =>
      rw [hpr] at hout
      dsimp only at hout
      exact ih _ _ _ _ _ hout

theorem fetchPagesLoop_fail (oracle : PageOracle) (limit pagesNeeded : Int)
    (hfail : ∀ n req, ∃ e, oracle n req = Except.error e) :
    ∀ (fuel : Nat) (page : Int) (acc : List RawCoin) (callIdx : Nat) (clock : Int)
      (trace : List MarketsReq), 1 ≤ fuel →
      ∃ e, (fetchPagesLoop oracle limit pagesNeeded fuel page acc callIdx clock trace).outcome =
        Except.error e := by
  intro fuel page acc callIdx clock trace hfuel
  cases fuel with
  | zero => omega
  | succ f =>
    obtain ⟨e, he⟩ := hfail callIdx { perPage := min 100 (limit - (acc.length : Int)), page := page }
    refine ⟨e, ?_⟩
    simp only [fetchPagesLoop]
    rw [he]

theorem fetchAttempts_fail (oracle : PageOracle) (limit pagesNeeded : Int)
    (hfail : ∀ n req, ∃ e, oracle n req = Except.error e)
    (hpn : 1 ≤ pagesNeeded.toNat) :
    ∀ (fuel attempt callIdx : Nat) (clock : Int) (trace : List MarketsReq),
      (fetchAttempts oracle limit pagesNeeded fuel attempt callIdx clock trace).outcome = none := by
  intro fuel
  induction fuel with
  | zero => intro attempt callIdx clock trace; rfl
  | succ f ih =>
    intro attempt callIdx clock trace
    obtain ⟨e, he⟩ :=
      fetchPagesLoop_fail oracle limit pagesNeeded hfail pagesNeeded.toNat 1 [] callIdx clock trace hpn
    rw [fetchAttempts]
    dsimp only
    rw [he]
    dsimp only
    exact ih _ _ _ _

theorem fetchAttempts_zero_pages (oracle : PageOracle) (limit pagesNeeded : Int)
    (h0 : pagesNeeded.toNat = 0) :
    ∀ (fuel attempt callIdx : Nat) (clock : Int) (trace : List MarketsReq), 1 ≤ fuel →
      fetchAttempts oracle limit pagesNeeded fuel attempt callIdx clock trace =
        { outcome := some [], callIdx := callIdx, clock := clock, trace := trace } := by
  intro fuel attempt callIdx clock trace hfuel
  cases fuel with
  | zero => omega
  | succ f =>
    rw [fetchAttempts, h0]
    rfl

theorem fetchCore_apply_succ (oracle : PageOracle) (limit : Int) (st : ApiState)
    (cryptos : List CryptoCurrency)
    (hout : (fetchAttempts oracle limit (jsCeilDiv100 limit) maxRetries 1 0 st.clock []).outcome =
      some cryptos) :
    fetchCore oracle limit st =
      { result := Except.ok cryptos,
        state := { st with
          lastApiCallTime := st.clock,
          clock := (fetchAttempts oracle limit (jsCeilDiv100 limit) maxRetries 1 0 st.clock []).clock,
          mainCacheData := some cryptos,
          mainCacheTimestamp :=
            (fetchAttempts oracle limit (jsCeilDiv100 limit) maxRetries 1 0 st.clock []).clock,
          loadedCryptos := cryptos },
        trace := (fetchAttempts oracle limit (jsCeilDiv100 limit) maxRetries 1 0 st.clock []).trace } := by
  unfold fetchCore
  dsimp only
  rw [hout]

theorem fetchCore_apply_some (oracle : PageOracle) (limit : Int) (st : ApiState)
    (data : List CryptoCurrency)
    (hsome : st.mainCacheData = some data)
    (hout : (fetchAttempts oracle limit (jsCeilDiv100 limit) maxRetries 1 0 st.clock []).outcome =
      none) :
    fetchCore oracle limit st =
      { result := Except.ok (jsSlice data limit),
        state := { st with
          lastApiCallTime := st.clock,
          clock := (fetchAttempts oracle limit (jsCeilDiv100 limit) maxRetries 1 0 st.clock []).clock,
          loadedCryptos := data },
        trace := (fetchAttempts oracle limit (jsCeilDiv100 limit) maxRetries 1 0 st.clock []).trace } := by
  unfold fetchCore
  dsimp only
  rw [hout, hsome]

theorem fetchCore_apply_none (oracle : PageOracle) (limit : Int) (st : ApiState)
    (hnone : st.mainCacheData = none)
    (hout : (fetchAttempts oracle limit (jsCeilDiv100 limit) maxRetries 1 0 st.clock []).outcome =
      none) :
    fetchCore oracle limit st =
      { result := Except.error fetchErrorMessage,
        state := { st with
          lastApiCallTime := st.clock,
          clock := (fetchAttempts oracle limit (jsCeilDiv100 limit) maxRetries 1 0 st.clock []).clock },
        trace := (fetchAttempts oracle limit (jsCeilDiv100 limit) maxRetries 1 0 st.clock []).trace } := by
  unfold fetchCore
  dsimp only
  rw [hout, hnone]

theorem fetchCore_ok (oracle : PageOracle) (limit : Int) (st : ApiState)
    (hbound : ∀ n req l2, oracle n req = Except.ok l2 → (l2.length : Int) ≤ req.perPage)
    (hlim : 0 ≤ limit)
    (hcache : ∀ data, st.mainCacheData = some data → ranksSequential data = true) :
    ∀ res, (fetchCore oracle limit st).result = Except.ok res →
      (res.length : Int) ≤ limit ∧ ranksSequential res = true := by
  intro res hres
  cases hout : (fetchAttempts oracle limit (jsCeilDiv100 limit) maxRetries 1 0 st.clock []).outcome with
  | some cryptos =>
    rw [fetchCore_apply_succ oracle limit st cryptos hout] at hres
    dsimp only at hres
    injection hres with h
    subst h
    exact fetchAttempts_ok oracle limit (jsCeilDiv100 limit) hbound hlim _ _ _ _ _ _ hout
  | none =>
    cases hmc : st.mainCacheData with
    | some data =>
      rw [fetchCore_apply_some oracle limit st data hmc hout] at hres
      dsimp only at hres
      injection hres with h
      subst h
      refine ⟨length_jsSlice_le _ _ hlim, ?_⟩
      rw [jsSlice_of_nonneg _ _ hlim]
      exact ranksSequential_take _ _ (hcache data hmc)
    | none =>
      rw [fetchCore_apply_none oracle limit st hmc hout] at hres
      dsimp only at hres
      cases hres

theorem fetchRateGate_ok (oracle : PageOracle) (limit : Int) (st : ApiState)
    (hbound : ∀ n req l2, oracle n req = Except.ok l2 → (l2.length : Int) ≤ req.perPage)
    (hlim : 0 ≤ limit)
    (hcache : ∀ data, st.mainCacheData = some data → ranksSequential data = true) :
    ∀ res, (fetchRateGate oracle limit st).result = Except.ok res →
      (res.length : Int) ≤ limit ∧ ranksSequential res = true := by
  intro res hres
  unfold fetchRateGate at hres
  dsimp only at hres
  by_cases hrl : st.clock - st.lastApiCallTime < API_RATE_LIMIT
  · rw [if_pos hrl] at hres
    cases hmc : st.mainCacheData with
    | some data =>
      rw [hmc] at hres
      dsimp only at hres
      injection hres with h
      subst h
      refine ⟨length_jsSlice_le _ _ hlim, ?_⟩
      rw [jsSlice_of_nonneg _ _ hlim]
      exact ranksSequential_take _ _ (hcache data hmc)
    | none =>
      rw [hmc] at hres
      dsimp only at hres
      exact fetchCore_ok oracle limit _ hbound hlim (fun d hd => Option.noConfusion hd) res hres
  · rw [if_neg hrl] at hres
    exact fetchCore_ok oracle limit st hbound hlim hcache res hres

/-- Claim C1: for every limit at least 1, `fetchTopCryptocurrencies` returns at
most `limit` records, each with `rank` equal to its 1-based position in the
returned sequence — on the cache-hit path, which slices the cached snapshot
(assumed rank-sequential, as every stored snapshot is), and on the
fresh-fetch path, which assigns ranks sequentially across pages; the oracle
hypothesis says the upstream honors the requested `per_page` bound. -/
theorem C1_limit_and_ranks (oracle : PageOracle) (limit : Int) (st : ApiState)
    (hlim : 1 ≤ limit)
    (hbound : ∀ n req l2, oracle n req = Except.ok l2 → (l2.length : Int) ≤ req.perPage)
    (hcache : ∀ data, st.mainCacheData = some data → ranksSequential data = true) :
    ∀ res, (fetchTopCryptocurrencies oracle limit st).result = Except.ok res →
      (res.length : Int) ≤ limit ∧ ranksSequential res = true := by
  intro res hres
  have hlim0 : (0 : Int) ≤ limit := by omega
  unfold fetchTopCryptocurrencies at hres
  cases hmc : st.mainCacheData with
  | some data =>
    rw [hmc] at hres
    dsimp only at hres
    by_cases hfresh : st.clock - st.mainCacheTimestamp < MAIN_CACHE_DURATION
    · rw [if_pos hfresh] at hres
      dsimp only at hres
      injection hres with h
      subst h
      refine ⟨length_jsSlice_le _ _ hlim0, ?_⟩
      rw [jsSlice_of_nonneg _ _ hlim0]
      exact ranksSequential_take _ _ (hcache data hmc)
    · rw [if_neg hfresh] at hres
      exact fetchRateGate_ok oracle limit st hbound hlim0 hcache res hres
  | none =>
    rw [hmc] at hres
    dsimp only at hres
    exact fetchRateGate_ok oracle limit st hbound hlim0 hcache res hres

theorem C1_witness :
    ((1 : Int) ≤ 2) ∧
    (fetchTopCryptocurrencies errPageOracle 2 wFreshState).result = Except.ok [wBtc, wEth] ∧
    (([wBtc, wEth] : List CryptoCurrency).length : Int) ≤ 2 ∧
    ranksSequential [wBtc, wEth] = true := by
  have happ := C1_limit_and_ranks errPageOracle 2 wFreshState (by norm_num)
    (fun n req l2 h => Except.noConfusion h)
    (by intro d hd; injection hd with h2; subst h2; decide)
    [wBtc, wEth] (by decide)
  exact ⟨by norm_num, by decide, happ.1, happ.2⟩

theorem fetchCore_fail_facts (oracle : PageOracle) (limit : Int) (st : ApiState)
    (hfail : ∀ n req, ∃ e, oracle n req = Except.error e)
    (hlim : 1 ≤ limit) :
    (fetchCore oracle limit st).state.mainCacheData = st.mainCacheData ∧
    (fetchCore oracle limit st).state.mainCacheTimestamp = st.mainCacheTimestamp ∧
    (∀ data, st.mainCacheData = some data →
      (fetchCore oracle limit st).result = Except.ok (jsSlice data limit)) ∧
    (st.mainCacheData = none →
      (fetchCore oracle limit st).result = Except.error fetchErrorMessage) := by
  have hpn := jsCeilDiv100_toNat_pos limit hlim
  have hout : (fetchAttempts oracle limit (jsCeilDiv100 limit) maxRetries 1 0 st.clock []).outcome = none :=
    fetchAttempts_fail oracle limit _ hfail hpn _ _ _ _ _
  cases hmc : st.mainCacheData with
  | some data =>
    rw [fetchCore_apply_some oracle limit st data hmc hout]
    refine ⟨by first | rfl | exact hmc, rfl, fun d hd => ?_, fun h => Option.noConfusion h⟩
    injection hd with h2
    subst h2
    rfl
  | none =>
    rw [fetchCore_apply_none oracle limit st hmc hout]
    exact ⟨by first | rfl | exact hmc, rfl, fun d hd => Option.noConfusion hd, fun _ => rfl⟩

theorem fetchRateGate_fail_facts (oracle : PageOracle) (limit : Int) (st : ApiState)
    (hfail : ∀ n req, ∃ e, oracle n req = Except.error e)
    (hlim : 1 ≤ limit) :
    (fetchRateGate oracle limit st).state.mainCacheData = st.mainCacheData ∧
    (fetchRateGate oracle limit st).state.mainCacheTimestamp = st.mainCacheTimestamp ∧
    (∀ data, st.mainCacheData = some data →
      (fetchRateGate oracle limit st).result = Except.ok (jsSlice data limit)) ∧
    (st.mainCacheData = none →
      (fetchRateGate oracle limit st).result = Except.error fetchErrorMessage) := by
  unfold fetchRateGate
  dsimp only
  by_cases hrl : st.clock - st.lastApiCallTime < API_RATE_LIMIT
  · rw [if_pos hrl]
    cases hmc : st.mainCacheData with
    | some data =>
      dsimp only
      refine ⟨rfl, rfl, fun d hd => ?_, fun h => Option.noConfusion h⟩
      injection hd with h2
      subst h2
      rfl
    | none =>
      dsimp only
      refine ⟨(fetchCore_fail_facts oracle limit _ hfail hlim).1,
        (fetchCore_fail_facts oracle limit _ hfail hlim).2.1,
        fun d hd => Option.noConfusion hd,
        fun _ => (fetchCore_fail_facts oracle limit _ hfail hlim).2.2.2 rfl⟩
  · rw [if_neg hrl]
    exact fetchCore_fail_facts oracle limit st hfail hlim

/-- Claim C3: when every retry attempt fails, the snapshot cache (data and
timestamp) is left exactly as it was, the previous cached snapshot — even a
stale one — is returned (sliced to `limit`) when one exists, and only when
no snapshot was ever stored does the call fail with the data-unavailable
error. -/
theorem C3_fallback_preserves_cache (oracle : PageOracle) (limit : Int) (st : ApiState)
    (hlim : 1 ≤ limit)
    (hfail : ∀ n req, ∃ e, oracle n req = Except.error e) :
    (fetchTopCryptocurrencies oracle limit st).state.mainCacheData = st.mainCacheData ∧
    (fetchTopCryptocurrencies oracle limit st).state.mainCacheTimestamp = st.mainCacheTimestamp ∧
    (∀ data, st.mainCacheData = some data →
      (fetchTopCryptocurrencies oracle limit st).result = Except.ok (jsSlice data limit)) ∧
    (st.mainCacheData = none →
      (fetchTopCryptocurrencies oracle limit st).result = Except.error fetchErrorMessage) := by
  unfold fetchTopCryptocurrencies
  cases hmc : st.mainCacheData with
  | some data =>
    dsimp only
    by_cases hfresh : st.clock - st.mainCacheTimestamp < MAIN_CACHE_DURATION
    · rw [if_pos hfresh]
      refine ⟨rfl, rfl, fun d hd => ?_, fun h => Option.noConfusion h⟩
      injection hd with h2
      subst h2
      rfl
    · rw [if_neg hfresh]
      have h := fetchRateGate_fail_facts oracle limit st hfail hlim
      refine ⟨h.1.trans hmc, h.2.1, fun d hd => ?_, fun h' => Option.noConfusion h'⟩
      injection hd with h2
      subst h2
      exact h.2.2.1 _ hmc
  | none =>
    dsimp only
    have h := fetchRateGate_fail_facts oracle limit st hfail hlim
    exact ⟨h.1.trans hmc, h.2.1, fun d hd => Option.noConfusion hd, fun _ => h.2.2.2 hmc⟩

theorem C3_witness :
    ((1 : Int) ≤ 1) ∧
    (fetchTopCryptocurrencies errPageOracle 1 wStaleState).state.mainCacheData =
      wStaleState.mainCacheData ∧
    (fetchTopCryptocurrencies errPageOracle 1 wStaleState).state.mainCacheTimestamp =
      wStaleState.mainCacheTimestamp ∧
    (fetchTopCryptocurrencies errPageOracle 1 wStaleState).result =
      Except.ok (jsSlice [wBtc, wEth] 1) := by
  have h := C3_fallback_preserves_cache errPageOracle 1 wStaleState (by norm_num)
    (fun n req => ⟨{ status := none }, rfl⟩)
  exact ⟨by norm_num, h.1, h.2.1, h.2.2.1 [wBtc, wEth] rfl⟩

theorem fetchCore_state_lastApiCallTime (oracle : PageOracle) (limit : Int) (st : ApiState) :
    (fetchCore oracle limit st).state.lastApiCallTime = st.clock := by
  unfold fetchCore
  dsimp only
  cases (fetchAttempts oracle limit (jsCeilDiv100 limit) maxRetries 1 0 st.clock []).outcome with
  | some cryptos => rfl
  | none =>
    cases st.mainCacheData with
    | some data => rfl
    | none => rfl

/-- Claim C5: a call made while the minimum inter-request interval since the
previous network call has not yet elapsed issues no network request and
returns the cached snapshot (even expired) sliced to `limit`, when one
exists; only with no snapshot at all does it wait out the remainder of the
interval before proceeding — the network phase is then entered with the
last-network-call stamp exactly one full interval after the previous one. -/
theorem C5_rate_limited (oracle : PageOracle) (limit : Int) (st : ApiState)
    (hrl : st.clock - st.lastApiCallTime < API_RATE_LIMIT) :
    (∀ data, st.mainCacheData = some data →
      (fetchTopCryptocurrencies oracle limit st).result = Except.ok (jsSlice data limit) ∧
      (fetchTopCryptocurrencies oracle limit st).trace = [] ∧
      (fetchTopCryptocurrencies oracle limit st).state.mainCacheData = some data ∧
      (fetchTopCryptocurrencies oracle limit st).state.lastApiCallTime = st.lastApiCallTime) ∧
    (st.mainCacheData = none →
      (fetchTopCryptocurrencies oracle limit st).state.lastApiCallTime =
        st.lastApiCallTime + API_RATE_LIMIT) := by
  unfold fetchTopCryptocurrencies
  cases hmc : st.mainCacheData with
  | some data =>
    dsimp only
    refine ⟨fun d hd => ?_, fun h => Option.noConfusion h⟩
    injection hd with h2
    subst h2
    by_cases hfresh : st.clock - st.mainCacheTimestamp < MAIN_CACHE_DURATION
    · rw [if_pos hfresh]
      exact ⟨rfl, rfl, rfl, rfl⟩
    · rw [if_neg hfresh]
      unfold fetchRateGate
      dsimp only
      rw [if_pos hrl, hmc]
      dsimp only
      exact ⟨rfl, rfl, rfl, rfl⟩
  | none =>
    dsimp only
    refine ⟨fun d hd => Option.noConfusion hd, fun _ => ?_⟩
    unfold fetchRateGate
    dsimp only
    rw [if_pos hrl, hmc]
    dsimp only
    rw [fetchCore_state_lastApiCallTime]
    dsimp only
    omega

theorem C5_witness :
    (wStaleState.clock - wStaleState.lastApiCallTime < API_RATE_LIMIT) ∧
    (fetchTopCryptocurrencies errPageOracle 5 wStaleState).result =
      Except.ok (jsSlice [wBtc, wEth] 5) ∧
    (fetchTopCryptocurrencies errPageOracle 5 wStaleState).trace = [] ∧
    (fetchTopCryptocurrencies errPageOracle 5 wStaleState).state.mainCacheData =
      some [wBtc, wEth] ∧
    (fetchTopCryptocurrencies errPageOracle 5 wStaleState).state.lastApiCallTime =
      wStaleState.lastApiCallTime := by
  have h := (C5_rate_limited errPageOracle 5 wStaleState (by decide)).1 [wBtc, wEth] rfl
  exact ⟨by decide, h.1, h.2.1, h.2.2.1, h.2.2.2⟩

/-- Claim C9: a call with `limit <= 0`, no cached snapshot and the interval
elapsed raises no error — it computes zero pages, issues no request, stores
the empty array as the new snapshot with a fresh timestamp and returns `[]`;
afterwards any call that sees such a fresh empty snapshot returns `[]` with
no network call, whatever its limit. -/
theorem C9_nonpositive_limit (oracle : PageOracle) (limit : Int) (st : ApiState)
    (hlim : limit ≤ 0) (hnone : st.mainCacheData = none)
    (hrl : ¬(st.clock - st.lastApiCallTime < API_RATE_LIMIT)) :
    (fetchTopCryptocurrencies oracle limit st).result = Except.ok [] ∧
    (fetchTopCryptocurrencies oracle limit st).trace = [] ∧
    (fetchTopCryptocurrencies oracle limit st).state.mainCacheData = some [] ∧
    (fetchTopCryptocurrencies oracle limit st).state.mainCacheTimestamp = st.clock ∧
    (∀ (oracle2 : PageOracle) (limit2 : Int) (st2 : ApiState),
      st2.mainCacheData = some ([] : List CryptoCurrency) →
      st2.clock - st2.mainCacheTimestamp < MAIN_CACHE_DURATION →
      (fetchTopCryptocurrencies oracle2 limit2 st2).result = Except.ok [] ∧
      (fetchTopCryptocurrencies oracle2 limit2 st2).trace = []) := by
  have h0 : (jsCeilDiv100 limit).toNat = 0 := jsCeilDiv100_toNat_zero limit hlim
  have hatt := fetchAttempts_zero_pages oracle limit (jsCeilDiv100 limit) h0
    maxRetries 1 0 st.clock [] (by decide)
  have hout : (fetchAttempts oracle limit (jsCeilDiv100 limit) maxRetries 1 0 st.clock []).outcome =
      some [] := by rw [hatt]
  have hcore := fetchCore_apply_succ oracle limit st [] hout
  have hpath : fetchTopCryptocurrencies oracle limit st = fetchCore oracle limit st := by
    unfold fetchTopCryptocurrencies
    rw [hnone]
    dsimp only
    unfold fetchRateGate
    dsimp only
    rw [if_neg hrl]
  rw [hpath, hcore]
  refine ⟨rfl, ?_, rfl, ?_, ?_⟩
  · rw [hatt]
  · rw [hatt]
  · intro oracle2 limit2 st2 hm2 hf2
    unfold fetchTopCryptocurrencies
    rw [hm2]
    dsimp only
    rw [if_pos hf2]
    exact ⟨by rw [jsSlice_nil], rfl⟩

theorem C9_witness :
    ((0 : Int) ≤ 0) ∧
    (fetchTopCryptocurrencies errPageOracle 0 wElapsedState).result = Except.ok [] ∧
    (fetchTopCryptocurrencies errPageOracle 0 wElapsedState).trace = [] ∧
    (fetchTopCryptocurrencies errPageOracle 0 wElapsedState).state.mainCacheData = some [] ∧
    (fetchTopCryptocurrencies errPageOracle 0 wElapsedState).state.mainCacheTimestamp =
      wElapsedState.clock := by
  have h := C9_nonpositive_limit errPageOracle 0 wElapsedState (by norm_num) rfl (by decide)
  exact ⟨le_refl 0, h.1, h.2.1, h.2.2.1, h.2.2.2.1⟩


/-- Counterexample to claim C4 as stated: on a 2-page request whose page-1
fetches succeed (even-numbered calls) and whose page-2 fetches are
rate-limited (odd-numbered calls), the trace shows the already-succeeded
page 1 being re-fetched on every retry — three page-1 requests in all, not
one. -/
theorem C4_counterexample :
    (c4oracle429 0 { perPage := 100, page := 1 } = Except.ok (List.replicate 100 rawX)) ∧
    (c4oracle429 1 { perPage := 50, page := 2 } = Except.error { status := some 429 }) ∧
    (fetchTopCryptocurrencies c4oracle429 150 c4state).trace =
      [{ perPage := 100, page := 1 }, { perPage := 50, page := 2 },
       { perPage := 100, page := 1 }, { perPage := 50, page := 2 },
       { perPage := 100, page := 1 }, { perPage := 50, page := 2 }] ∧
    ¬((fetchTopCryptocurrencies c4oracle429 150 c4state).trace.countP
        (fun r => r.page == 1) ≤ 1) := by decide

/-- Claim C4 (amended): on a transient failure of any page of a multi-page
fetch, the entire cycle is retried from page 1 — pages that already
succeeded are re-fetched — up to 3 attempts, with a longer escalating delay
for HTTP 429 responses (attempt x 10 s, applied even after the final
attempt) and a linearly increasing delay for generic errors (attempt x 3 s,
only between attempts); exhibited on a 2-page request whose page 2 always
fails: each of the 3 attempts issues both page requests, and the total added
delay is 3 x 1 s inter-page waits plus 10+20+30 s for 429s, or plus 3+6 s
for generic errors. -/
theorem C4_amended_full_cycle_retry (st : ApiState)
    (hnone : st.mainCacheData = none)
    (hrl : ¬(st.clock - st.lastApiCallTime < API_RATE_LIMIT)) :
    ((fetchTopCryptocurrencies c4oracle429 150 st).trace =
      [{ perPage := 100, page := 1 }, { perPage := 50, page := 2 },
       { perPage := 100, page := 1 }, { perPage := 50, page := 2 },
       { perPage := 100, page := 1 }, { perPage := 50, page := 2 }] ∧
      (fetchTopCryptocurrencies c4oracle429 150 st).state.clock = st.clock + 63000 ∧
      (fetchTopCryptocurrencies c4oracle429 150 st).result = Except.error fetchErrorMessage) ∧
    ((fetchTopCryptocurrencies c4oracleGeneric 150 st).trace =
      [{ perPage := 100, page := 1 }, { perPage := 50, page := 2 },
       { perPage := 100, page := 1 }, { perPage := 50, page := 2 },
       { perPage := 100, page := 1 }, { perPage := 50, page := 2 }] ∧
      (fetchTopCryptocurrencies c4oracleGeneric 150 st).state.clock = st.clock + 12000 ∧
      (fetchTopCryptocurrencies c4oracleGeneric 150 st).result = Except.error fetchErrorMessage) := by
  have hpath1 : fetchTopCryptocurrencies c4oracle429 150 st = fetchCore c4oracle429 150 st := by
    unfold fetchTopCryptocurrencies
    rw [hnone]
    dsimp only
    unfold fetchRateGate
    dsimp only
    rw [if_neg hrl]
  have hpath2 : fetchTopCryptocurrencies c4oracleGeneric 150 st = fetchCore c4oracleGeneric 150 st := by
    unfold fetchTopCryptocurrencies
    rw [hnone]
    dsimp only
    unfold fetchRateGate
    dsimp only
    rw [if_neg hrl]
  have har1 : fetchAttempts c4oracle429 150 (jsCeilDiv100 150) maxRetries 1 0 st.clock [] =
      { outcome := none, callIdx := 6,
        clock := st.clock + 1000 + 10000 + 1000 + 20000 + 1000 + 30000,
        trace := [reqP1, reqP2, reqP1, reqP2, reqP1, reqP2] } := by
    with_unfolding_all rfl
  have har2 : fetchAttempts c4oracleGeneric 150 (jsCeilDiv100 150) maxRetries 1 0 st.clock [] =
      { outcome := none, callIdx := 6,
        clock := st.clock + 1000 + 3000 + 1000 + 6000 + 1000,
        trace := [reqP1, reqP2, reqP1, reqP2, reqP1, reqP2] } := by
    with_unfolding_all rfl
  have hcore1 := fetchCore_apply_none c4oracle429 150 st hnone (by rw [har1])
  have hcore2 := fetchCore_apply_none c4oracleGeneric 150 st hnone (by rw [har2])
  refine ⟨⟨?_, ?_, ?_⟩, ⟨?_, ?_, ?_⟩⟩
  · rw [hpath1, hcore1, har1]
    rfl
  · rw [hpath1, hcore1, har1]
    dsimp only
    omega
  · rw [hpath1, hcore1]
  · rw [hpath2, hcore2, har2]
    rfl
  · rw [hpath2, hcore2, har2]
    dsimp only
    omega
  · rw [hpath2, hcore2]

theorem C4_witness :
    c4state.mainCacheData = none ∧
    ¬(c4state.clock - c4state.lastApiCallTime < API_RATE_LIMIT) ∧
    (fetchTopCryptocurrencies c4oracle429 150 c4state).trace =
      [{ perPage := 100, page := 1 }, { perPage := 50, page := 2 },
       { perPage := 100, page := 1 }, { perPage := 50, page := 2 },
       { perPage := 100, page := 1 }, { perPage := 50, page := 2 }] ∧
    (fetchTopCryptocurrencies c4oracle429 150 c4state).state.clock = c4state.clock + 63000 := by
  have h := C4_amended_full_cycle_retry c4state rfl (by decide)
  exact ⟨rfl, by decide, h.1.1, h.1.2.1⟩

theorem searchApiPhase_facts (oracle : SearchOracle) (query cacheKey : String)
    (localResults : List CryptoCurrency) (st : ApiState) :
    (∃ rs, (searchApiPhase oracle query cacheKey localResults st).result = Except.ok rs) ∧
    (∀ e, oracle.searchEndpoint = Except.error e →
      (searchApiPhase oracle query cacheKey localResults st).result = Except.ok localResults) ∧
    (∀ hits e, oracle.searchEndpoint = Except.ok hits →
      oracle.marketsEndpoint = Except.error e →
      (searchApiPhase oracle query cacheKey localResults st).result = Except.ok localResults) := by
  unfold searchApiPhase
  try dsimp only
  cases hse : oracle.searchEndpoint with
  | error e0 =>
    try dsimp only
    exact ⟨⟨localResults, rfl⟩, fun e _ => rfl, fun hits e hh _ => Except.noConfusion hh⟩
  | ok hits =>
    try dsimp only
    by_cases hz : hits.length == 0
    · rw [if_pos hz]
      exact ⟨⟨localResults, rfl⟩, fun e he => Except.noConfusion he, fun hits' e _ _ => rfl⟩
    · rw [if_neg hz]
      try dsimp only
      cases hme : oracle.marketsEndpoint with
      | error e1 =>
        try dsimp only
        exact ⟨⟨localResults, rfl⟩, fun e he => Except.noConfusion he, fun hits' e _ _ => rfl⟩
      | ok coins =>
        try dsimp only
        exact ⟨⟨_, rfl⟩, fun e he => Except.noConfusion he,
          fun hits' e _ hm => Except.noConfusion hm⟩

theorem searchLocalPhase_facts (oracle : SearchOracle) (query cacheKey : String) (st : ApiState) :
    (∃ rs, (searchLocalPhase oracle query cacheKey st).result = Except.ok rs) ∧
    (∀ e, oracle.searchEndpoint = Except.error e →
      (searchLocalPhase oracle query cacheKey st).trace ≠ [] →
      (searchLocalPhase oracle query cacheKey st).result =
        Except.ok (localSearch (availableCryptosOf st) (jsToLower query))) ∧
    (∀ hits e, oracle.searchEndpoint = Except.ok hits →
      oracle.marketsEndpoint = Except.error e →
      (∃ ids, SearchReq.marketsCall ids ∈ (searchLocalPhase oracle query cacheKey st).trace) →
      (searchLocalPhase oracle query cacheKey st).result =
        Except.ok (localSearch (availableCryptosOf st) (jsToLower query))) := by
  unfold searchLocalPhase
  try dsimp only
  by_cases h1 : query.length < 2
  · rw [if_pos h1]
    exact ⟨⟨[], rfl⟩, fun e _ ht => absurd rfl ht,
      fun hits e _ _ h => absurd h.choose_spec (List.not_mem_nil _)⟩
  · rw [if_neg h1]
    try dsimp only
    by_cases h2 : (localSearch (availableCryptosOf st) (jsToLower query)).length ≥ 1
    · rw [if_pos h2]
      exact ⟨⟨_, rfl⟩, fun e _ ht => absurd rfl ht,
        fun hits e _ _ h => absurd h.choose_spec (List.not_mem_nil _)⟩
    · rw [if_neg h2]
      try dsimp only
      by_cases h3 : (availableCryptosOf st).length == 0
      · rw [if_pos h3]
        exact ⟨⟨[], rfl⟩, fun e _ ht => absurd rfl ht,
          fun hits e _ _ h => absurd h.choose_spec (List.not_mem_nil _)⟩
      · rw [if_neg h3]
        try dsimp only
        by_cases h4 : query.length < 3
        · rw [if_pos h4]
          exact ⟨⟨[], rfl⟩, fun e _ ht => absurd rfl ht,
            fun hits e _ _ h => absurd h.choose_spec (List.not_mem_nil _)⟩
        · rw [if_neg h4]
          try dsimp only
          by_cases h5 : st.clock - st.lastApiCallTime < SEARCH_RATE_LIMIT
          · rw [if_pos h5]
            exact ⟨⟨_, rfl⟩, fun e _ ht => absurd rfl ht,
              fun hits e _ _ h => absurd h.choose_spec (List.not_mem_nil _)⟩
          · rw [if_neg h5]
            have h := searchApiPhase_facts oracle query cacheKey
              (localSearch (availableCryptosOf st) (jsToLower query)) st
            exact ⟨h.1, fun e he _ => h.2.1 e he, fun hits e hh hm _ => h.2.2 hits e hh hm⟩

/-- Claim C7: `searchCryptocurrencies` never throws for network failures —
its result is always a normally returned list — and whenever the remote
search endpoint or the follow-up market-data call fails, the locally
computed results are returned instead of propagating the failure (the trace
conditions pin down that the failing call was actually issued). -/
theorem C7_never_throws (oracle : SearchOracle) (query : String) (st : ApiState) :
    (∃ rs, (searchCryptocurrencies oracle query st).result = Except.ok rs) ∧
    (∀ e, oracle.searchEndpoint = Except.error e →
      (searchCryptocurrencies oracle query st).trace ≠ [] →
      (searchCryptocurrencies oracle query st).result =
        Except.ok (localSearch (availableCryptosOf st) (jsToLower query))) ∧
    (∀ hits e, oracle.searchEndpoint = Except.ok hits →
      oracle.marketsEndpoint = Except.error e →
      (∃ ids, SearchReq.marketsCall ids ∈ (searchCryptocurrencies oracle query st).trace) →
      (searchCryptocurrencies oracle query st).result =
        Except.ok (localSearch (availableCryptosOf st) (jsToLower query))) := by
  unfold searchCryptocurrencies
  try dsimp only
  cases hcg : cacheGet st.searchCache (jsTrim (jsToLower query)) with
  | some cached =>
    try dsimp only
    by_cases hf : st.clock - cached.timestamp < CACHE_DURATION
    · rw [if_pos hf]
      exact ⟨⟨cached.data, rfl⟩, fun e _ ht => absurd rfl ht,
        fun hits e _ _ h => absurd h.choose_spec (List.not_mem_nil _)⟩
    · rw [if_neg hf]
      exact searchLocalPhase_facts oracle query _ st
  | none =>
    try dsimp only
    exact searchLocalPhase_facts oracle query _ st

theorem C7_witness :
    errSearchOracle.searchEndpoint = Except.error { status := none } ∧
    (searchCryptocurrencies errSearchOracle "qqq" wSearchState).trace ≠ [] ∧
    (searchCryptocurrencies errSearchOracle "qqq" wSearchState).result =
      Except.ok (localSearch (availableCryptosOf wSearchState) (jsToLower "qqq")) := by
  have h := (C7_never_throws errSearchOracle "qqq" wSearchState).2.1 { status := none } rfl
    (by decide)
  exact ⟨rfl, by decide, h⟩

/-- Claim C6 (amended): a query shorter than 2 characters — in particular the
empty string and a single space — returns an empty result with no state
change, no cache write and no network call, provided no fresh cache entry
sits under its trimmed lowercased key (a fresh entry, which only a
whitespace query of length at least 2 can have created under the empty key,
is returned instead). -/
theorem C6_amended_short_query (oracle : SearchOracle) (query : String) (st : ApiState)
    (hlen : query.length < 2)
    (hstale : ∀ entry, cacheGet st.searchCache (jsTrim (jsToLower query)) = some entry →
      ¬(st.clock - entry.timestamp < CACHE_DURATION)) :
    searchCryptocurrencies oracle query st =
      { result := Except.ok [], state := st, trace := [], cacheWrites := 0 } := by
  unfold searchCryptocurrencies
  dsimp only
  cases hcg : cacheGet st.searchCache (jsTrim (jsToLower query)) with
  | some cached =>
    dsimp only
    rw [if_neg (hstale cached hcg)]
    unfold searchLocalPhase
    dsimp only
    rw [if_pos hlen]
  | none =>
    dsimp only
    unfold searchLocalPhase
    dsimp only
    rw [if_pos hlen]

/-- Counterexample to claim C6 as stated: the whitespace-only query of two
spaces, against a snapshot whose record name contains two consecutive
spaces, returns that record (not the empty result) and performs a cache
write. -/
theorem C6_counterexample :
    ("  ".data.all jsIsWhitespace = true) ∧
    (searchCryptocurrencies errSearchOracle "  " c6state).result = Except.ok [c6coin] ∧
    ¬((searchCryptocurrencies errSearchOracle "  " c6state).result = Except.ok []) ∧
    (searchCryptocurrencies errSearchOracle "  " c6state).cacheWrites = 1 := by decide

theorem C6_witness :
    (" ".length < 2) ∧
    searchCryptocurrencies errSearchOracle " " emptyState =
      { result := Except.ok [], state := emptyState, trace := [], cacheWrites := 0 } := by
  refine ⟨by decide, C6_amended_short_query errSearchOracle " " emptyState (by decide) ?_⟩
  intro entry h
  exact Option.noConfusion h

/-- Claim C10: the search caches under the trimmed lowercased query but
matches with the un-trimmed lowercased query.  Part one: any fresh cache
entry under the trimmed key is returned verbatim, with no recomputation, no
cache write and no network call — so two queries equal after trimming share
one entry.  Part two, concretely: against a snapshot containing Bitcoin,
rate-limited, the query with a trailing space ("btc ") matches nothing and
caches `[]` under the key "btc"; the follow-up query "btc" then returns that
empty result from the cache, although computed independently it would have
returned the Bitcoin record. -/
theorem C10_trimmed_key_untrimmed_match :
    (∀ (oracle : SearchOracle) (q : String) (st : ApiState) (entry : SearchEntry),
      cacheGet st.searchCache (jsTrim (jsToLower q)) = some entry →
      st.clock - entry.timestamp < CACHE_DURATION →
      searchCryptocurrencies oracle q st =
        { result := Except.ok entry.data, state := st, trace := [], cacheWrites := 0 }) ∧
    ((searchCryptocurrencies errSearchOracle "btc " c10state).result = Except.ok [] ∧
      cacheGet (searchCryptocurrencies errSearchOracle "btc " c10state).state.searchCache
        (jsTrim (jsToLower "btc ")) = some { data := [], timestamp := 1000000 } ∧
      jsTrim (jsToLower "btc ") = "btc" ∧
      searchCryptocurrencies errSearchOracle "btc"
          (searchCryptocurrencies errSearchOracle "btc " c10state).state =
        { result := Except.ok [],
          state := (searchCryptocurrencies errSearchOracle "btc " c10state).state,
          trace := [], cacheWrites := 0 } ∧
      (searchCryptocurrencies errSearchOracle "btc" c10state).result = Except.ok [wBtc]) := by
  constructor
  · intro oracle q st entry hget hfresh
    unfold searchCryptocurrencies
    dsimp only
    rw [hget]
    dsimp only
    rw [if_pos hfresh]
  · exact ⟨by decide, by decide, by decide, by decide, by decide⟩

theorem C10_witness :
    cacheGet c10cachedState.searchCache (jsTrim (jsToLower "AB ")) =
      some { data := [wBtc], timestamp := 900000 } ∧
    (c10cachedState.clock - (900000 : Int) < CACHE_DURATION) ∧
    searchCryptocurrencies errSearchOracle "AB " c10cachedState =
      { result := Except.ok [wBtc], state := c10cachedState, trace := [], cacheWrites := 0 } := by
  refine ⟨by decide, by decide, ?_⟩
  exact C10_trimmed_key_untrimmed_match.1 errSearchOracle "AB " c10cachedState
    { data := [wBtc], timestamp := 900000 } (by decide) (by decide)

/-- Claim C8: if every favorite id appears in the passed snapshot,
`fetchMissingFavorites` returns `[]` immediately with no network call and no
state change; with missing ids but within the rate-limit interval it returns
`[]` with no network call; otherwise it issues exactly one batch request
covering at most 50 of the missing ids and returns the mapped records the
upstream sends back (ids the upstream omits are silently dropped; a failed
request yields `[]`). -/
theorem C8_missing_favorites (oracle : Except HttpError (List RawCoin))
    (favoriteIds : List String) (loaded : List CryptoCurrency) (st : ApiState) :
    ((∀ i ∈ favoriteIds, i ∈ loaded.map CryptoCurrency.id) →
      fetchMissingFavorites oracle favoriteIds loaded st =
        { result := [], state := st, trace := [] }) ∧
    (missingOf favoriteIds loaded ≠ [] →
      st.clock - st.lastApiCallTime < API_RATE_LIMIT →
      fetchMissingFavorites oracle favoriteIds loaded st =
        { result := [], state := st, trace := [] }) ∧
    (missingOf favoriteIds loaded ≠ [] →
      ¬(st.clock - st.lastApiCallTime < API_RATE_LIMIT) →
      ((fetchMissingFavorites oracle favoriteIds loaded st).trace =
          [joinComma ((missingOf favoriteIds loaded).take 50)] ∧
        ((missingOf favoriteIds loaded).take 50).length ≤ 50 ∧
        (∀ coins, oracle = Except.ok coins →
          (fetchMissingFavorites oracle favoriteIds loaded st).result =
            coins.map rawToCryptoByRank) ∧
        (∀ e, oracle = Except.error e →
          (fetchMissingFavorites oracle favoriteIds loaded st).result = []))) := by
  refine ⟨?_, ?_, ?_⟩
  · intro hall
    have hmiss : missingOf favoriteIds loaded = [] := by
      unfold missingOf
      rw [List.filter_eq_nil_iff]
      intro a ha
      have hmem := hall a ha
      simp [hmem]
    unfold fetchMissingFavorites
    dsimp only
    rw [hmiss]
    rfl
  · intro hne hrl
    have hcond : ¬(((missingOf favoriteIds loaded).length == 0) = true) := by
      simp only [beq_iff_eq, List.length_eq_zero]
      exact hne
    unfold fetchMissingFavorites
    dsimp only
    rw [if_neg hcond, if_pos hrl]
  · intro hne hrl
    have hcond : ¬(((missingOf favoriteIds loaded).length == 0) = true) := by
      simp only [beq_iff_eq, List.length_eq_zero]
      exact hne
    unfold fetchMissingFavorites
    dsimp only
    rw [if_neg hcond, if_neg hrl]
    try dsimp only
    refine ⟨?_, List.length_take_le 50 _, ?_, ?_⟩
    · cases oracle with
      | error e => rfl
      | ok coins => rfl
    · intro coins hk
      subst hk
      rfl
    · intro e hk
      subst hk
      rfl

theorem C8_witness :
    missingOf ["bitcoin", "ethereum"] [wBtc] ≠ [] ∧
    ¬(wSearchState.clock - wSearchState.lastApiCallTime < API_RATE_LIMIT) ∧
    (fetchMissingFavorites (Except.ok [rawEth]) ["bitcoin", "ethereum"] [wBtc] wSearchState).trace =
      [joinComma ((missingOf ["bitcoin", "ethereum"] [wBtc]).take 50)] ∧
    (fetchMissingFavorites (Except.ok [rawEth]) ["bitcoin", "ethereum"] [wBtc] wSearchState).result =
      [rawEth].map rawToCryptoByRank := by
  have h := (C8_missing_favorites (Except.ok [rawEth]) ["bitcoin", "ethereum"] [wBtc]
    wSearchState).2.2 (by decide) (by decide)
  exact ⟨by decide, by decide, h.1, h.2.2.1 [rawEth] rfl⟩
